import Mathlib

/-!
Verification of the OpenClaw chat streaming bridge: the SSE frame decoder
(streamGoalEvents in engine-client.ts) and the event-to-chunk translator
(createEngineStream / handleEvent in engine-stream-bridge.ts), together with
the configuration checks of the HTTP client (submitGoal / streamGoalEvents).

Embedding conventions:
  - JSON payloads are modelled by an inductive JsonValue; numbers are Int
    (only integral counts occur in the translated payloads).
  - JSON.parse and encodeURIComponent are JavaScript platform builtins, not
    repository code; they are passed as parameters (parse, encode) so every
    statement quantifies over them. parseStub instantiates them concretely
    for witnesses, agreeing with JSON.parse on every input it is fed.
  - Byte streams are modelled as lists of characters; TextDecoder with the
    stream flag reassembles partial code points, so arbitrary byte splits
    reduce to arbitrary character splits of the delivered text.
  - generateUUID produces fresh identifiers; it is modelled by a counter,
    which is exactly the freshness the bridge relies on.
-/

set_option linter.unusedVariables false

namespace OpenClaw

/-- JSON value as produced by JSON.parse: the runtime shape behind the
TypeScript Record casts in engine-client.ts / engine-stream-bridge.ts. -/
inductive JsonValue where
  | null : JsonValue
  | bool (b : Bool) : JsonValue
  | num (n : Int) : JsonValue
  | str (s : String) : JsonValue
  | arr (elems : List JsonValue) : JsonValue
  | obj (fields : List (String × JsonValue)) : JsonValue

/-- Property access v[k] on a JS value: none models undefined. Lookup on a
non-object yields undefined; objects produced by JSON.parse have unique keys. -/
def getProp (v : JsonValue) (k : String) : Option JsonValue :=
  match v with
  | .obj fields => fields.lookup k
  | _ => none

/-- Under the ?? operator a present null behaves like undefined; this
normalises an optional field value accordingly. -/
def nullish (o : Option JsonValue) : Option JsonValue :=
  match o with
  | some .null => none
  | o => o

/-- Optional chaining t?.k where t is the result of a property lookup: yields
undefined when t is undefined or null, does not throw on non-objects. -/
def optChain (t : Option JsonValue) (k : String) : Option JsonValue :=
  match t with
  | none => none
  | some .null => none
  | some v => getProp v k

/-- JS truthiness of a JSON value: null, false, 0 and the empty string are
falsy; arrays and objects are always truthy. -/
def truthy : JsonValue → Bool
  | .null => false
  | .bool b => b
  | .num n => n != 0
  | .str s => s != ""
  | .arr _ => true
  | .obj _ => true

/-- JS string conversion as performed by template literals. Inside an array
join, null elements render as the empty string. -/
def toJSStr : JsonValue → String
  | .null => "null"
  | .bool b => if b then "true" else "false"
  | .num n => toString n
  | .str s => s
  | .obj _ => "[object Object]"
  | .arr elems => String.intercalate ","
      (elems.attach.map (fun e =>
        match e with
        | ⟨.null, _⟩ => ""
        | ⟨v, _⟩ => toJSStr v))
decreasing_by
  have h : sizeOf v < sizeOf elems := List.sizeOf_lt_of_mem (by assumption)
  simp only [JsonValue.arr.sizeOf_spec]
  omega

/-- Whether a JS value is null (property access on it would raise). -/
def JsonValue.isNull : JsonValue → Bool
  | .null => true
  | _ => false

/-- EngineSSEEvent from engine-client.ts: one decoded SSE frame. -/
structure SSERecord where
  event : String
  data : JsonValue

/- ### SSE frame decoder (streamGoalEvents, engine-client.ts) -/

/-- Whitespace recognised by String.prototype.trim (the characters that can
occur here). -/
def isWsChar (c : Char) : Bool :=
  c = ' ' || c = '\t' || c = '\n' || c = '\r' || c = '\x0b' || c = '\x0c'

/-- String.prototype.trim on a character list. -/
def trimChars (l : List Char) : List Char :=
  ((l.dropWhile isWsChar).reverse.dropWhile isWsChar).reverse

/-- Prepends a character to the first piece of a split result. -/
def consHeadCh (c : Char) : List (List Char) → List (List Char)
  | [] => [[c]]
  | l :: ls => (c :: l) :: ls

/-- buffer.split on the two-character frame separator (a blank line): leftmost
match first, empty pieces kept, exactly JS String.split semantics. -/
def splitFrames : List Char → List (List Char)
  | [] => [[]]
  | [c] => [[c]]
  | c :: d :: rest =>
    if c = '\n' ∧ d = '\n' then [] :: splitFrames rest
    else consHeadCh c (splitFrames (d :: rest))

/-- frame.split on a single newline. -/
def splitLines : List Char → List (List Char)
  | [] => [[]]
  | c :: rest =>
    if c = '\n' then [] :: splitLines rest
    else consHeadCh c (splitLines rest)

def evtMark : List Char := ("event: ").data

def dataMark : List Char := ("data: ").data

/-- The per-frame line scan of streamGoalEvents: eventType defaults to
"message" and eventData to the empty-object text; an event-marked line sets
the trimmed name, a data-marked line sets the raw payload text; when several
lines match, later assignments overwrite earlier ones. -/
def parseFrameFields (lines : List (List Char)) : List Char × List Char :=
  lines.foldl
    (fun acc line =>
      if evtMark.isPrefixOf line then (trimChars (line.drop 7), acc.2)
      else if dataMark.isPrefixOf line then (acc.1, line.drop 6)
      else acc)
    (("message").data, ("\x7b\x7d").data)

/-- Decoder loop state: the carry-over text buffer, the records enqueued so
far, and whether the loop has returned after a terminal done frame. -/
structure DecoderState where
  buffer : List Char
  records : List SSERecord
  closed : Bool

/-- One iteration of the frame loop in streamGoalEvents: blank frames are
skipped, heartbeat/connected frames are filtered out, the data text is parsed
with the supplied JSON parser (a failed parse silently drops the frame), and a
frame named "done" closes the stream; once closed, nothing more is processed
(the loop has returned). -/
def processFrame (parse : String → Option JsonValue) (st : DecoderState)
    (frame : List Char) : DecoderState :=
  if st.closed then st
  else if trimChars frame = [] then st
  else
    let fields := parseFrameFields (splitLines frame)
    let eventType := fields.1
    let eventData := fields.2
    if eventType = ("heartbeat").data ∨ eventType = ("connected").data then st
    else
      let st1 :=
        match parse (String.mk eventData) with
        | some v =>
          { st with records := st.records ++ [⟨String.mk eventType, v⟩] }
        | none => st
      if eventType = ("done").data then { st1 with closed := true } else st1

/-- One reader.read() iteration of streamGoalEvents: append the decoded text
to the buffer, split on frame separators, keep the trailing (possibly
incomplete) piece as the new buffer, and process the complete frames. -/
def readChunk (parse : String → Option JsonValue) (st : DecoderState)
    (chunk : List Char) : DecoderState :=
  if st.closed then st
  else
    let frames := splitFrames (st.buffer ++ chunk)
    let st1 := { st with buffer := frames.getLastD [] }
    (frames.dropLast).foldl (processFrame parse) st1

def initDecoder : DecoderState := ⟨[], [], false⟩

/-- The full decode loop of streamGoalEvents over the delivered chunks. -/
def decodeAll (parse : String → Option JsonValue)
    (chunks : List (List Char)) : DecoderState :=
  chunks.foldl (readChunk parse) initDecoder

/- ### HTTP client configuration checks (engine-client.ts) -/

/-- The observable shape of a fetch the client would issue. The JSON request
body is abstracted to its message payload. -/
structure FetchRequest where
  url : String
  headers : List (String × String)
  payload : Option String
deriving DecidableEq

/-- getHeaders from engine-client.ts: Content-Type always; Authorization only
when the API key is configured (present and non-empty, per JS truthiness). -/
def getHeaders (apiKey : Option String) : List (String × String) :=
  let base := [("Content-Type", "application/json")]
  match apiKey with
  | some k => if k = "" then base else base ++ [("Authorization", "Bearer " ++ k)]
  | none => base

/-- submitGoal from engine-client.ts up to its first network action: with no
configured base URL (absent or empty, both falsy) it throws the configuration
error before building any request; otherwise it issues a POST to the chat
endpoint. -/
def submitGoal (engineUrl apiKey : Option String) (message : String) :
    Except String FetchRequest :=
  match engineUrl with
  | none => .error "OPENCLAW_ENGINE_URL is not configured"
  | some u =>
    if u = "" then .error "OPENCLAW_ENGINE_URL is not configured"
    else .ok ⟨u ++ "/api/engine/chat", getHeaders apiKey, some message⟩

/-- streamGoalEvents from engine-client.ts up to its first network action: the
configuration check runs at call time, before the stream start callback
performs the fetch; encode stands for the encodeURIComponent builtin. -/
def streamGoalEventsOpen (encode : String → String)
    (engineUrl apiKey : Option String) (goalId : String) :
    Except String FetchRequest :=
  match engineUrl with
  | none => .error "OPENCLAW_ENGINE_URL is not configured"
  | some u =>
    if u = "" then .error "OPENCLAW_ENGINE_URL is not configured"
    else .ok ⟨u ++ "/api/engine/chat/stream?goalId=" ++ encode goalId,
      getHeaders apiKey ++ [("Accept", "text/event-stream")], none⟩

/- ### Event translator (engine-stream-bridge.ts) -/

/-- UIMessageStream chunks written by the bridge (the writer.write payloads).
Span ids are generateUUID values, modelled as counter values; text deltas and
data messages are template-literal strings, while reasoning deltas and error
texts carry the raw payload value, as in the source. -/
inductive Chunk where
  | textStart (id : Nat)
  | textDelta (id : Nat) (delta : String)
  | textEnd (id : Nat)
  | reasoningStart (id : Nat)
  | reasoningDelta (id : Nat) (delta : JsonValue)
  | reasoningEnd (id : Nat)
  | dataAppendMessage (data : String)
  | finish (finishReason : String)
  | error (errorText : JsonValue)

/-- Translator state: the open text part id (activeTextId) plus the counter
backing generateUUID. -/
structure BridgeState where
  activeTextId : Option Nat
  nextId : Nat
deriving DecidableEq

/-- ensureTextStarted from createEngineStream: returns the id to write deltas
on, the chunks written, and the updated state; opens a fresh span only when
none is open. -/
def ensureTextStarted (s : BridgeState) : Nat × List Chunk × BridgeState :=
  match s.activeTextId with
  | some i => (i, [], s)
  | none => (s.nextId, [Chunk.textStart s.nextId],
      { activeTextId := some s.nextId, nextId := s.nextId + 1 })

/-- finishText from createEngineStream: closes the open text span, if any. -/
def finishText (s : BridgeState) : List Chunk × BridgeState :=
  match s.activeTextId with
  | some i => ([Chunk.textEnd i], { s with activeTextId := none })
  | none => ([], s)

/-- Content extraction of the agent:response case: output, else text, else
content, else the empty string. -/
def respContent (data : JsonValue) : JsonValue :=
  (((nullish (getProp data "output")).orElse
    (fun _ => nullish (getProp data "text"))).orElse
    (fun _ => nullish (getProp data "content"))).getD (.str "")

/-- handleEvent from engine-stream-bridge.ts. The Bool result records whether
the JS code raises a TypeError: every payload field is read off data itself,
so a field access throws exactly when data is null (JSON.parse can return
null; the Record cast is erased at runtime). Chunks already written before the
throwing access are kept, and writes after it are not performed. -/
def handleEvent (ev : SSERecord) (s : BridgeState) :
    List Chunk × BridgeState × Bool :=
  let type := ev.event
  let data := ev.data
  if type = "agent:thinking" then
    let ft := finishText s
    let s1 := ft.2
    let id := s1.nextId
    let s2 := { s1 with nextId := s1.nextId + 1 }
    if data.isNull then (ft.1, s2, true)
    else
      let agentId := (nullish (getProp data "agentId")).getD (.str "agent")
      let content :=
        ((nullish (getProp data "text")).orElse
          (fun _ => nullish (getProp data "content"))).getD
          (.str (toJSStr agentId ++ " is thinking..."))
      (ft.1 ++ [Chunk.reasoningStart id, Chunk.reasoningDelta id content,
        Chunk.reasoningEnd id], s2, false)
  else if type = "agent:response" then
    if data.isNull then ([], s, true)
    else
      let content := respContent data
      if truthy content then
        let et := ensureTextStarted s
        (et.2.1 ++ [Chunk.textDelta et.1 (toJSStr content ++ "\n\n")],
          et.2.2, false)
      else ([], s, false)
  else if type = "task:created" then
    if data.isNull then ([], s, true)
    else
      let task := getProp data "task"
      let title :=
        (((nullish (optChain task "title")).orElse
          (fun _ => nullish (getProp data "description"))).orElse
          (fun _ => nullish (optChain task "id"))).getD (.str "")
      ([Chunk.dataAppendMessage ("Task created: " ++ toJSStr title)], s, false)
  else if type = "task:started" then
    if data.isNull then ([], s, true)
    else
      let agentId := (nullish (getProp data "agentId")).getD (.str "")
      let taskId := (nullish (getProp data "taskId")).getD (.str "")
      ([Chunk.dataAppendMessage ("Task " ++ toJSStr taskId ++
        " assigned to agent")], s, false)
  else if type = "task:completed" then
    if data.isNull then ([], s, true)
    else
      let task := getProp data "task"
      let title :=
        ((nullish (optChain task "title")).orElse
          (fun _ => nullish (optChain task "id"))).getD (.str "")
      ([Chunk.dataAppendMessage ("Task completed: " ++ toJSStr title)],
        s, false)
  else if type = "task:failed" then
    if data.isNull then ([], s, true)
    else
      let err := (nullish (getProp data "error")).getD (.str "unknown error")
      ([Chunk.dataAppendMessage ("Task failed: " ++ toJSStr err)], s, false)
  else if type = "goal:completed" then
    if data.isNull then ([], s, true)
    else
      let tasks := (nullish (getProp data "tasks")).getD (.num 0)
      let completed := (nullish (getProp data "completed")).getD (.num 0)
      let failed := (nullish (getProp data "failed")).getD (.num 0)
      let et := ensureTextStarted s
      let ft := finishText et.2.2
      (et.2.1 ++
        [Chunk.textDelta et.1
          ("\n\n---\nGoal completed (" ++ toJSStr completed ++ "/" ++
            toJSStr tasks ++ " tasks, " ++ toJSStr failed ++ " failed)\n")] ++
        ft.1 ++ [Chunk.finish "stop"], ft.2, false)
  else if type = "agent:error" ∨ type = "loop:error" then
    let ft := finishText s
    if data.isNull then (ft.1, ft.2, true)
    else
      let errorText :=
        ((nullish (getProp data "error")).orElse
          (fun _ => nullish (getProp data "message"))).getD
          (.str "Engine error")
      (ft.1 ++ [Chunk.error errorText], ft.2, false)
  else ([], s, false)

/-- How the record stream hands control back to the driving loop: a graceful
end of stream, or a decode/transport failure thrown from the read. -/
inductive StreamEnd where
  | graceful
  | failure

/-- The driving while-loop of createEngineStream over the records delivered by
the reader; it stops early when handleEvent raises. -/
def runEvents : List SSERecord → BridgeState → List Chunk × BridgeState × Bool
  | [], s => ([], s, false)
  | e :: rest, s =>
    let r := handleEvent e s
    if r.2.2 then r
    else
      let r2 := runEvents rest r.2.1
      (r.1 ++ r2.1, r2.2.1, r2.2.2)

/-- createEngineStream: drives the loop over the delivered records until the
stream ends (gracefully or by a thrown read failure), then the finally block
closes any open text part. The Bool is true when the call propagates an
exception rather than returning normally. -/
def createEngineStream (events : List SSERecord) (ending : StreamEnd) :
    List Chunk × Bool :=
  let r := runEvents events ⟨none, 0⟩
  let ft := finishText r.2.1
  (r.1 ++ ft.1,
    r.2.2 || (match ending with | .failure => true | .graceful => false))

/- ### Bracketing scanner for claim C1 -/

/-- Text-span bracketing scanner: tracks the currently open text span over a
chunk list; the outer none marks a violation (a second open while one is open,
or a close without a matching open). Chunks other than textStart/textEnd do
not affect it. -/
def spanStep : Option (Option Nat) → Chunk → Option (Option Nat)
  | none, _ => none
  | some (some _), Chunk.textStart _ => none
  | some none, Chunk.textStart i => some (some i)
  | some (some j), Chunk.textEnd i => if i = j then some none else none
  | some none, Chunk.textEnd _ => none
  | some o, _ => some o

def spanScan (o : Option Nat) (cs : List Chunk) : Option (Option Nat) :=
  cs.foldl spanStep (some o)

/-- A chunk list is well bracketed when the scan from the closed state
succeeds and ends in the closed state: at every point at most one text span is
open, every opened span is closed exactly once by its matching end, and no end
appears without a prior matching open. -/
def wellBracketed (cs : List Chunk) : Prop := spanScan none cs = some none

/- ### Auxiliary definitions for decoder claims -/

/-- The last-wins reading of the frame line scan stated by claim C10: the name
comes from the last event-marked line (default "message"), the data text from
the last data-marked line (default the empty-object text). Stated from the
claim's words, for comparison with parseFrameFields. -/
def lastWinsFields (lines : List (List Char)) : List Char × List Char :=
  ((match (lines.filter (fun l => evtMark.isPrefixOf l)).getLast? with
    | some l => trimChars (l.drop 7)
    | none => ("message").data),
   (match (lines.filter (fun l => dataMark.isPrefixOf l)).getLast? with
    | some l => l.drop 6
    | none => ("\x7b\x7d").data))

/-- Concrete JSON parser instantiating witnesses and counterexamples; it
agrees with JSON.parse on every data text fed to it there: the empty-object
text parses to the empty object, and the other inputs used are not valid
JSON. -/
def parseStub (s : String) : Option JsonValue :=
  if s = "\x7b\x7d" then some (.obj []) else none

/-- A complete SSE frame body with one event line and one data line. -/
def mkFrame (name dataText : List Char) : List Char :=
  evtMark ++ name ++ '\n' :: (dataMark ++ dataText)

/-- The on-wire text of a list of frames, each terminated by the blank-line
separator. -/
def framesText : List (List Char × List Char) → List Char
  | [] => []
  | f :: fs => mkFrame f.1 f.2 ++ '\n' :: '\n' :: framesText fs

/-- Well-formedness of a frame for claim C2: newline-free name and data text,
a trimmed name that is not one of the control names, and data that parses. -/
def wfFrame (parse : String → Option JsonValue)
    (f : List Char × List Char) : Prop :=
  ('\n' ∉ f.1) ∧ ('\n' ∉ f.2) ∧
  trimChars f.1 ≠ ("heartbeat").data ∧ trimChars f.1 ≠ ("connected").data ∧
  trimChars f.1 ≠ ("done").data ∧ (parse (String.mk f.2)).isSome

/-- The record a well-formed frame decodes to. -/
def frameRecord (parse : String → Option JsonValue)
    (f : List Char × List Char) : SSERecord :=
  ⟨String.mk (trimChars f.1), (parse (String.mk f.2)).getD .null⟩

/- ### Lemmas about the frame splitter -/

theorem consHeadCh_ne_nil (c : Char) (ls : List (List Char)) :
    consHeadCh c ls ≠ [] := by
  cases ls <;> simp [consHeadCh]

theorem splitFrames_ne_nil (l : List Char) : splitFrames l ≠ [] := by
  induction l using splitFrames.induct with
  | case1 => simp [splitFrames]
  | case2 c => simp [splitFrames]
  | case3 c d rest h ih => simp [splitFrames, h]
  | case4 c d rest h ih =>
    simp only [splitFrames, if_neg h]
    exact consHeadCh_ne_nil _ _

theorem splitFrames_sep (l : List Char) :
    splitFrames ('\n' :: '\n' :: l) = [] :: splitFrames l := by
  simp [splitFrames]

theorem splitFrames_cons_of_ne (c : Char) (l : List Char) (hc : c ≠ '\n') :
    splitFrames (c :: l) = consHeadCh c (splitFrames l) := by
  cases l with
  | nil => simp [splitFrames, consHeadCh]
  | cons d rest => simp [splitFrames, hc]

theorem splitFrames_cons_of_head_ne (c d : Char) (l : List Char)
    (hd : d ≠ '\n') :
    splitFrames (c :: d :: l) = consHeadCh c (splitFrames (d :: l)) := by
  simp [splitFrames, hd]

theorem splitFrames_single (l : List Char) :
    ∀ x, splitFrames l = [x] → x = l := by
  induction l using splitFrames.induct with
  | case1 =>
    intro x h
    simp [splitFrames] at h
    exact h
  | case2 c =>
    intro x h
    simp [splitFrames] at h
    exact h.symm
  | case3 c d rest h ih =>
    intro x hx
    obtain ⟨hc, hd⟩ := h
    subst hc; subst hd
    rw [splitFrames_sep] at hx
    have := splitFrames_ne_nil rest
    simp at hx
    exact absurd hx.2 this
  | case4 c d rest h ih =>
    intro x hx
    simp only [splitFrames, if_neg h] at hx
    cases hsf : splitFrames (d :: rest) with
    | nil => exact absurd hsf (splitFrames_ne_nil _)
    | cons a t =>
      rw [hsf] at hx
      simp only [consHeadCh] at hx
      cases t with
      | nil =>
        simp at hx
        have ha := ih a hsf
        subst ha
        simp [← hx]
      | cons b t2 => simp at hx

theorem getLastD_append_ne {α : Type} (l₁ l₂ : List α) (d : α)
    (h : l₂ ≠ []) : (l₁ ++ l₂).getLastD d = l₂.getLastD d := by
  induction l₁ generalizing d with
  | nil => rfl
  | cons a l ih =>
    rw [List.cons_append, List.getLastD_cons, ih a]
    cases l₂ with
    | nil => exact absurd rfl h
    | cons b m => rw [List.getLastD_cons, List.getLastD_cons]

/-- Splitting a concatenation: the pieces of X except the trailing one are
final, and the trailing piece is re-examined together with B. This is the
buffer-retention property of the decoder at the level of String.split. -/
theorem splitFrames_append (X B : List Char) :
    splitFrames (X ++ B) =
      (splitFrames X).dropLast ++
        splitFrames ((splitFrames X).getLastD [] ++ B) := by
  induction X using splitFrames.induct with
  | case1 => simp [splitFrames]
  | case2 c => simp [splitFrames]
  | case3 c d rest h ih =>
    obtain ⟨hc, hd⟩ := h
    subst hc; subst hd
    rw [List.cons_append, List.cons_append, splitFrames_sep, ih,
      splitFrames_sep]
    cases hrest : splitFrames rest with
    | nil => exact absurd hrest (splitFrames_ne_nil rest)
    | cons a t => simp
  | case4 c d rest h ih =>
    have hstep : splitFrames (c :: d :: (rest ++ B)) =
        consHeadCh c (splitFrames (d :: (rest ++ B))) := by
      by_cases hd : d = '\n'
      · have hc : c ≠ '\n' := fun hcc => h ⟨hcc, hd⟩
        exact splitFrames_cons_of_ne c _ hc
      · exact splitFrames_cons_of_head_ne c d _ hd
    have hstep2 : splitFrames (c :: d :: rest) =
        consHeadCh c (splitFrames (d :: rest)) := by
      by_cases hd : d = '\n'
      · have hc : c ≠ '\n' := fun hcc => h ⟨hcc, hd⟩
        exact splitFrames_cons_of_ne c _ hc
      · exact splitFrames_cons_of_head_ne c d _ hd
    rw [List.cons_append] at ih
    rw [List.cons_append, List.cons_append, hstep, ih, hstep2]
    cases hsf : splitFrames (d :: rest) with
    | nil => exact absurd hsf (splitFrames_ne_nil _)
    | cons a t =>
      cases t with
      | nil =>
        have ha : a = d :: rest := splitFrames_single _ a hsf
        have hfinal : splitFrames (c :: (a ++ B)) =
            consHeadCh c (splitFrames (a ++ B)) := by
          by_cases hd : d = '\n'
          · have hc : c ≠ '\n' := fun hcc => h ⟨hcc, hd⟩
            exact splitFrames_cons_of_ne c _ hc
          · subst ha
            rw [List.cons_append]
            exact splitFrames_cons_of_head_ne c d _ hd
        exact hfinal.symm
      | cons b t2 => rfl

/- ### Decoder pipeline lemmas -/

theorem processFrame_buffer (parse : String → Option JsonValue)
    (st : DecoderState) (f : List Char) :
    (processFrame parse st f).buffer = st.buffer := by
  simp only [processFrame]
  repeat' split
  all_goals rfl

theorem processFrame_set_buffer (parse : String → Option JsonValue)
    (st : DecoderState) (b : List Char) (f : List Char) :
    processFrame parse { st with buffer := b } f =
      { processFrame parse st f with buffer := b } := by
  simp only [processFrame]
  repeat' split
  all_goals rfl

theorem processFrame_closed_absorb (parse : String → Option JsonValue)
    (st : DecoderState) (f : List Char) (h : st.closed = true) :
    processFrame parse st f = st := by
  simp [processFrame, h]

theorem foldl_processFrame_buffer (parse : String → Option JsonValue)
    (fs : List (List Char)) (st : DecoderState) :
    (fs.foldl (processFrame parse) st).buffer = st.buffer := by
  induction fs generalizing st with
  | nil => rfl
  | cons f fs ih => rw [List.foldl_cons, ih, processFrame_buffer]

theorem foldl_processFrame_set_buffer (parse : String → Option JsonValue)
    (fs : List (List Char)) (st : DecoderState) (b : List Char) :
    fs.foldl (processFrame parse) { st with buffer := b } =
      { fs.foldl (processFrame parse) st with buffer := b } := by
  induction fs generalizing st with
  | nil => rfl
  | cons f fs ih =>
    rw [List.foldl_cons, List.foldl_cons, processFrame_set_buffer, ih]

theorem foldl_processFrame_closed (parse : String → Option JsonValue)
    (fs : List (List Char)) (st : DecoderState) (h : st.closed = true) :
    fs.foldl (processFrame parse) st = st := by
  induction fs with
  | nil => rfl
  | cons f fs ih => rw [List.foldl_cons, processFrame_closed_absorb _ _ _ h, ih]

theorem readChunk_closed (parse : String → Option JsonValue)
    (st : DecoderState) (c : List Char) (h : st.closed = true) :
    readChunk parse st c = st := by
  simp [readChunk, h]

/-- The projection-wise correspondence used to compare decoder runs: equal
records and closed flag, and equal buffers whenever the stream is still
open (after a terminal done frame the buffer is dead state). -/
def decEquiv (s t : DecoderState) : Prop :=
  s.records = t.records ∧ s.closed = t.closed ∧
    (s.closed = false → s.buffer = t.buffer)

theorem decEquiv_refl (s : DecoderState) : decEquiv s s :=
  ⟨rfl, rfl, fun _ => rfl⟩

theorem decEquiv_symm {s t : DecoderState} (h : decEquiv s t) : decEquiv t s :=
  ⟨h.1.symm, h.2.1.symm, fun ht => (h.2.2 (h.2.1.trans ht)).symm⟩

theorem decEquiv_trans {s t u : DecoderState} (h1 : decEquiv s t)
    (h2 : decEquiv t u) : decEquiv s u :=
  ⟨h1.1.trans h2.1, h1.2.1.trans h2.2.1,
    fun hs => (h1.2.2 hs).trans (h2.2.2 (h1.2.1.symm.trans hs))⟩

theorem decEquiv_eq_of_open {s t : DecoderState} (h : decEquiv s t)
    (hs : s.closed = false) : s = t := by
  obtain ⟨h1, h2, h3⟩ := h
  cases s; cases t
  simp_all

theorem readChunk_congr (parse : String → Option JsonValue)
    {s t : DecoderState} (c : List Char) (h : decEquiv s t) :
    decEquiv (readChunk parse s c) (readChunk parse t c) := by
  rcases hs : s.closed with _ | _
  · rw [decEquiv_eq_of_open h hs]
    exact decEquiv_refl _
  · have ht : t.closed = true := by rw [← h.2.1]; exact hs
    rw [readChunk_closed _ _ _ hs, readChunk_closed _ _ _ ht]
    exact h

/-- readChunk on an open state, unfolded. -/
theorem readChunk_open (parse : String → Option JsonValue)
    (st : DecoderState) (c : List Char) (h : st.closed = false) :
    readChunk parse st c =
      ((splitFrames (st.buffer ++ c)).dropLast).foldl (processFrame parse)
        { st with buffer := (splitFrames (st.buffer ++ c)).getLastD [] } := by
  rw [readChunk, if_neg (by simp [h])]

/-- Retention across reads: feeding the text in one read or in two reads
yields the same records and closed flag (and the same buffer while the stream
is open): the trailing piece of the first read is never parsed and is
re-examined together with the next read's text. -/
theorem readChunk_append (parse : String → Option JsonValue)
    (st : DecoderState) (a b : List Char) :
    decEquiv (readChunk parse st (a ++ b))
      (readChunk parse (readChunk parse st a) b) := by
  obtain ⟨buf, recs, cl⟩ := st
  rcases cl with _ | _
  · -- open state
    have hQne := splitFrames_ne_nil ((splitFrames (buf ++ a)).getLastD [] ++ b)
    have hL : readChunk parse ⟨buf, recs, false⟩ (a ++ b) =
        ((splitFrames ((splitFrames (buf ++ a)).getLastD [] ++ b)).dropLast).foldl
          (processFrame parse)
          ((splitFrames (buf ++ a)).dropLast.foldl (processFrame parse)
            ⟨(splitFrames ((splitFrames (buf ++ a)).getLastD [] ++ b)).getLastD [],
              recs, false⟩) := by
      rw [readChunk_open parse _ _ rfl]
      show ((splitFrames (buf ++ (a ++ b))).dropLast).foldl (processFrame parse)
        ⟨(splitFrames (buf ++ (a ++ b))).getLastD [], recs, false⟩ = _
      rw [← List.append_assoc, splitFrames_append (buf ++ a) b,
        List.dropLast_append_of_ne_nil _ hQne, getLastD_append_ne _ _ _ hQne,
        List.foldl_append]
    have hshift : ∀ β : List Char,
        (splitFrames (buf ++ a)).dropLast.foldl (processFrame parse)
            ⟨β, recs, false⟩ =
          { (splitFrames (buf ++ a)).dropLast.foldl (processFrame parse)
              ⟨(splitFrames (buf ++ a)).getLastD [], recs, false⟩ with
            buffer := β } := by
      intro β
      exact foldl_processFrame_set_buffer parse _
        ⟨(splitFrames (buf ++ a)).getLastD [], recs, false⟩ β
    have hR1 : readChunk parse ⟨buf, recs, false⟩ a =
        (splitFrames (buf ++ a)).dropLast.foldl (processFrame parse)
          ⟨(splitFrames (buf ++ a)).getLastD [], recs, false⟩ :=
      readChunk_open parse _ _ rfl
    rw [hL, hshift, hR1]
    set S := (splitFrames (buf ++ a)).dropLast.foldl (processFrame parse)
      ⟨(splitFrames (buf ++ a)).getLastD [], recs, false⟩ with hS
    have hSbuf : S.buffer = (splitFrames (buf ++ a)).getLastD [] := by
      rw [hS, foldl_processFrame_buffer]
    rcases hScl : S.closed with _ | _
    · -- still open after the first batch: full state equality
      rw [readChunk_open parse S b hScl, hSbuf]
      have hset : ({ S with
          buffer := (splitFrames ((splitFrames (buf ++ a)).getLastD [] ++ b)).getLastD [] } :
            DecoderState) =
          { S with
            buffer := (splitFrames ((splitFrames (buf ++ a)).getLastD [] ++ b)).getLastD [] } :=
        rfl
      exact decEquiv_refl _
    · -- the first batch closed the stream: records and flag still agree
      rw [readChunk_closed _ _ _ hScl,
        foldl_processFrame_closed _ _ _ (by simp [hScl])]
      exact ⟨rfl, rfl, fun hcf => by simp [hScl] at hcf⟩
  · -- closed state: everything is absorbed
    rw [readChunk_closed _ _ _ rfl, readChunk_closed _ _ _ rfl,
      readChunk_closed _ _ _ rfl]
    exact decEquiv_refl _

theorem getLastD_mem {α : Type} (l : List α) (d : α) (h : l ≠ []) :
    l.getLastD d ∈ l := by
  induction l generalizing d with
  | nil => exact absurd rfl h
  | cons a t ih =>
    rw [List.getLastD_cons]
    cases t with
    | nil => simp [List.getLastD]
    | cons b m => exact List.mem_cons_of_mem a (ih a (by simp))

theorem splitFrames_head_start (d : Char) (rest : List Char) :
    (splitFrames (d :: rest)).headD [] = [] ∨
    ∃ a, (splitFrames (d :: rest)).headD [] = d :: a := by
  cases rest with
  | nil => exact Or.inr ⟨[], rfl⟩
  | cons e r =>
    by_cases hsep : d = '\n' ∧ e = '\n'
    · left
      obtain ⟨h1, h2⟩ := hsep
      subst h1; subst h2
      rw [splitFrames_sep]
      rfl
    · right
      simp only [splitFrames, if_neg hsep]
      cases hs : splitFrames (e :: r) with
      | nil => exact absurd hs (splitFrames_ne_nil _)
      | cons a t => exact ⟨a, by simp [consHeadCh]⟩

/-- Every piece produced by the frame splitter is itself separator-free:
splitting it again is the identity. -/
theorem splitFrames_piece (X : List Char) :
    ∀ x ∈ splitFrames X, splitFrames x = [x] := by
  induction X using splitFrames.induct with
  | case1 =>
    intro x hx
    simp [splitFrames] at hx
    subst hx
    simp [splitFrames]
  | case2 c =>
    intro x hx
    simp [splitFrames] at hx
    subst hx
    simp [splitFrames]
  | case3 c d rest h ih =>
    intro x hx
    obtain ⟨hc, hd⟩ := h
    subst hc; subst hd
    rw [splitFrames_sep] at hx
    rcases List.mem_cons.mp hx with h1 | h2
    · subst h1; simp [splitFrames]
    · exact ih x h2
  | case4 c d rest h ih =>
    intro x hx
    simp only [splitFrames, if_neg h] at hx
    cases hsf : splitFrames (d :: rest) with
    | nil => exact absurd hsf (splitFrames_ne_nil _)
    | cons a t =>
      rw [hsf] at hx
      simp only [consHeadCh] at hx
      rcases List.mem_cons.mp hx with h1 | h2
      · subst h1
        have hsfa : splitFrames a = [a] :=
          ih a (by rw [hsf]; exact List.mem_cons_self _ _)
        have hhead : a = (splitFrames (d :: rest)).headD [] := by
          rw [hsf]; rfl
        rcases splitFrames_head_start d rest with hs | ⟨a2, hs⟩
        · rw [← hhead] at hs
          subst hs
          simp [splitFrames]
        · rw [← hhead] at hs
          subst hs
          have hstep : splitFrames (c :: d :: a2) =
              consHeadCh c (splitFrames (d :: a2)) := by
            by_cases hd : d = '\n'
            · have hc : c ≠ '\n' := fun hcc => h ⟨hcc, hd⟩
              exact splitFrames_cons_of_ne c _ hc
            · exact splitFrames_cons_of_head_ne c d _ hd
          rw [hstep, hsfa]
          rfl
      · exact ih x (by rw [hsf]; exact List.mem_cons_of_mem a h2)

/-- Invariant of the decode loop: the retained buffer never contains a frame
separator (it is the trailing piece of a split). -/
def goodBuffer (st : DecoderState) : Prop :=
  splitFrames st.buffer = [st.buffer]

theorem readChunk_goodBuffer (parse : String → Option JsonValue)
    (st : DecoderState) (c : List Char) (h : goodBuffer st) :
    goodBuffer (readChunk parse st c) := by
  rcases hcl : st.closed with _ | _
  · rw [readChunk_open parse st c hcl]
    unfold goodBuffer
    rw [foldl_processFrame_buffer]
    exact splitFrames_piece _ _ (getLastD_mem _ _ (splitFrames_ne_nil _))
  · rw [readChunk_closed _ _ _ hcl]
    exact h

theorem readChunk_nil_of_good (parse : String → Option JsonValue)
    (st : DecoderState) (h : goodBuffer st) :
    readChunk parse st [] = st := by
  rcases hcl : st.closed with _ | _
  · rw [readChunk_open parse st [] hcl, List.append_nil, h]
    simp
  · exact readChunk_closed _ _ _ hcl

/-- The text delivered by a list of reads, concatenated. -/
def concatChunks (cs : List (List Char)) : List Char :=
  cs.foldr (fun c acc => c ++ acc) []

/-- Chunk-split invariance of the decoder: any partition of the delivered text
into reads produces the same records and closed flag (and the same buffer
while the stream is open) as a single read of the whole text. -/
theorem decode_concat (parse : String → Option JsonValue)
    (cs : List (List Char)) (st : DecoderState) (h : goodBuffer st) :
    decEquiv (cs.foldl (readChunk parse) st)
      (readChunk parse st (concatChunks cs)) := by
  induction cs generalizing st with
  | nil =>
    rw [List.foldl_nil]
    have : concatChunks [] = [] := rfl
    rw [this, readChunk_nil_of_good parse st h]
    exact decEquiv_refl st
  | cons c cs ih =>
    rw [List.foldl_cons]
    have hc : concatChunks (c :: cs) = c ++ concatChunks cs := rfl
    rw [hc]
    exact decEquiv_trans (ih (readChunk parse st c) (readChunk_goodBuffer parse st c h))
      (decEquiv_symm (readChunk_append parse st c (concatChunks cs)))

/- ### Well-formed frame texts decode to their records -/

theorem splitFrames_noNl_append (xs ys : List Char) (h : '\n' ∉ xs) :
    splitFrames (xs ++ ys) =
      (xs ++ (splitFrames ys).headD []) :: (splitFrames ys).tail := by
  induction xs with
  | nil =>
    cases hys : splitFrames ys with
    | nil => exact absurd hys (splitFrames_ne_nil ys)
    | cons a t => simp [hys]
  | cons c xs ih =>
    have hc : c ≠ '\n' := by
      intro hcc
      exact h (by rw [hcc]; exact List.mem_cons_self _ _)
    have hxs : '\n' ∉ xs := fun hm => h (List.mem_cons_of_mem c hm)
    rw [List.cons_append, splitFrames_cons_of_ne c _ hc, ih hxs]
    simp [consHeadCh]

theorem splitLines_nl (l : List Char) :
    splitLines ('\n' :: l) = [] :: splitLines l := by
  simp [splitLines]

theorem splitLines_cons_of_ne (c : Char) (l : List Char) (hc : c ≠ '\n') :
    splitLines (c :: l) = consHeadCh c (splitLines l) := by
  simp [splitLines, hc]

theorem splitLines_ne_nil (l : List Char) : splitLines l ≠ [] := by
  cases l with
  | nil => simp [splitLines]
  | cons c rest =>
    simp only [splitLines]
    split
    · simp
    · exact consHeadCh_ne_nil _ _

theorem splitLines_noNl (l : List Char) (h : '\n' ∉ l) : splitLines l = [l] := by
  induction l with
  | nil => simp [splitLines]
  | cons c rest ih =>
    have hc : c ≠ '\n' := by
      intro hcc
      exact h (by rw [hcc]; exact List.mem_cons_self _ _)
    have hrest : '\n' ∉ rest := fun hm => h (List.mem_cons_of_mem c hm)
    rw [splitLines_cons_of_ne c _ hc, ih hrest]
    rfl

theorem splitLines_noNl_append (xs ys : List Char) (h : '\n' ∉ xs) :
    splitLines (xs ++ ys) =
      (xs ++ (splitLines ys).headD []) :: (splitLines ys).tail := by
  induction xs with
  | nil =>
    cases hys : splitLines ys with
    | nil => exact absurd hys (splitLines_ne_nil ys)
    | cons a t => simp [hys]
  | cons c xs ih =>
    have hc : c ≠ '\n' := by
      intro hcc
      exact h (by rw [hcc]; exact List.mem_cons_self _ _)
    have hxs : '\n' ∉ xs := fun hm => h (List.mem_cons_of_mem c hm)
    rw [List.cons_append, splitLines_cons_of_ne c _ hc, ih hxs]
    simp [consHeadCh]

theorem noNl_evtMark : '\n' ∉ evtMark := by decide

theorem noNl_dataMark : '\n' ∉ dataMark := by decide

theorem splitLines_mkFrame (n d : List Char) (hn : '\n' ∉ n)
    (hd : '\n' ∉ d) :
    splitLines (mkFrame n d) = [evtMark ++ n, dataMark ++ d] := by
  have hxs : '\n' ∉ evtMark ++ n := by
    rw [List.mem_append]
    rintro (h1 | h2)
    · exact noNl_evtMark h1
    · exact hn h2
  have hshape : mkFrame n d = (evtMark ++ n) ++ ('\n' :: (dataMark ++ d)) := by
    simp [mkFrame]
  rw [hshape, splitLines_noNl_append _ _ hxs, splitLines_nl,
    splitLines_noNl _ (by
      rw [List.mem_append]
      rintro (h1 | h2)
      · exact noNl_dataMark h1
      · exact hd h2)]
  simp

theorem isPrefixOf_append_self (l m : List Char) :
    l.isPrefixOf (l ++ m) = true := by
  rw [List.isPrefixOf_iff_prefix]
  exact List.prefix_append l m

theorem evtMark_not_pre_data (d : List Char) :
    evtMark.isPrefixOf (dataMark ++ d) = false := rfl

theorem parseFrameFields_mkFrame (n d : List Char) :
    parseFrameFields [evtMark ++ n, dataMark ++ d] = (trimChars n, d) := by
  unfold parseFrameFields
  rw [List.foldl_cons, List.foldl_cons, List.foldl_nil]
  rw [if_pos (isPrefixOf_append_self evtMark n)]
  rw [if_neg (by rw [evtMark_not_pre_data d]; exact Bool.false_ne_true)]
  rw [if_pos (isPrefixOf_append_self dataMark d)]
  have h7 : (evtMark ++ n).drop 7 = n := by
    rw [show (7 : Nat) = evtMark.length from rfl, List.drop_left]
  have h6 : (dataMark ++ d).drop 6 = d := by
    rw [show (6 : Nat) = dataMark.length from rfl, List.drop_left]
  rw [h7, h6]

theorem dropWhile_append_last {α : Type} (p : α → Bool) (xs : List α) (a : α)
    (h : p a = false) : (xs ++ [a]).dropWhile p ≠ [] := by
  induction xs with
  | nil => simp [List.dropWhile, h]
  | cons x xs ih =>
    rw [List.cons_append, List.dropWhile_cons]
    split
    · exact ih
    · simp

theorem trimChars_cons_ne_nil (c : Char) (l : List Char)
    (h : isWsChar c = false) : trimChars (c :: l) ≠ [] := by
  unfold trimChars
  rw [List.dropWhile_cons, if_neg (by simp [h]), List.reverse_cons]
  intro hcon
  rw [List.reverse_eq_nil_iff] at hcon
  exact dropWhile_append_last isWsChar l.reverse c h hcon

theorem trimChars_mkFrame_ne_nil (n d : List Char) :
    trimChars (mkFrame n d) ≠ [] := by
  have hshape : mkFrame n d =
      'e' :: (("vent: ").data ++ (n ++ '\n' :: (dataMark ++ d))) := rfl
  rw [hshape]
  exact trimChars_cons_ne_nil _ _ (by decide)

theorem processFrame_mkFrame (parse : String → Option JsonValue)
    (st : DecoderState) (f : List Char × List Char)
    (hwf : wfFrame parse f) (hcl : st.closed = false) :
    processFrame parse st (mkFrame f.1 f.2) =
      { st with records := st.records ++ [frameRecord parse f] } := by
  obtain ⟨hn, hd, hhb, hcn, hdn, hps⟩ := hwf
  obtain ⟨v, hv⟩ := Option.isSome_iff_exists.mp hps
  simp only [processFrame]
  rw [if_neg (by simp [hcl]),
    if_neg (trimChars_mkFrame_ne_nil f.1 f.2),
    splitLines_mkFrame f.1 f.2 hn hd, parseFrameFields_mkFrame]
  rw [if_neg (by rintro (h1 | h1); exact hhb h1; exact hcn h1)]
  rw [hv, if_neg hdn]
  simp [frameRecord, hv]

theorem splitFrames_mkFrame_sep (n d rest : List Char)
    (hn : '\n' ∉ n) (hd : '\n' ∉ d) :
    splitFrames (mkFrame n d ++ '\n' :: '\n' :: rest) =
      mkFrame n d :: splitFrames rest := by
  have hxs : '\n' ∉ evtMark ++ n := by
    rw [List.mem_append]
    rintro (h1 | h2)
    · exact noNl_evtMark h1
    · exact hn h2
  have hdl : '\n' ∉ dataMark ++ d := by
    rw [List.mem_append]
    rintro (h1 | h2)
    · exact noNl_dataMark h1
    · exact hd h2
  have hshape : mkFrame n d ++ '\n' :: '\n' :: rest =
      (evtMark ++ n) ++ ('\n' :: ((dataMark ++ d) ++ ('\n' :: '\n' :: rest))) := by
    simp [mkFrame]
  have h1 : splitFrames ((dataMark ++ d) ++ ('\n' :: '\n' :: rest)) =
      (dataMark ++ d) :: splitFrames rest := by
    rw [splitFrames_noNl_append _ _ hdl, splitFrames_sep]
    cases hr : splitFrames rest with
    | nil => exact absurd hr (splitFrames_ne_nil rest)
    | cons a t => simp
  have h2 : splitFrames ('\n' :: ((dataMark ++ d) ++ ('\n' :: '\n' :: rest))) =
      consHeadCh '\n' (splitFrames ((dataMark ++ d) ++ ('\n' :: '\n' :: rest))) := by
    have hdshape : (dataMark ++ d) ++ ('\n' :: '\n' :: rest) =
        'd' :: ((("ata: ").data ++ d) ++ ('\n' :: '\n' :: rest)) := rfl
    rw [hdshape]
    exact splitFrames_cons_of_head_ne '\n' 'd' _ (by decide)
  rw [hshape, splitFrames_noNl_append _ _ hxs, h2, h1]
  simp [mkFrame, consHeadCh]

theorem splitFrames_framesText (fs : List (List Char × List Char))
    (h : ∀ f ∈ fs, ('\n' ∉ f.1) ∧ ('\n' ∉ f.2)) :
    splitFrames (framesText fs) =
      fs.map (fun f => mkFrame f.1 f.2) ++ [[]] := by
  induction fs with
  | nil => simp [framesText, splitFrames]
  | cons f fs ih =>
    obtain ⟨hn, hd⟩ := h f (List.mem_cons_self _ _)
    rw [framesText, splitFrames_mkFrame_sep f.1 f.2 _ hn hd,
      ih (fun g hg => h g (List.mem_cons_of_mem f hg))]
    simp

theorem foldl_processFrame_wf (parse : String → Option JsonValue)
    (fs : List (List Char × List Char)) (st : DecoderState)
    (hwf : ∀ f ∈ fs, wfFrame parse f) (hcl : st.closed = false) :
    (fs.map (fun f => mkFrame f.1 f.2)).foldl (processFrame parse) st =
      { st with records := st.records ++ fs.map (frameRecord parse) } := by
  induction fs generalizing st with
  | nil => simp
  | cons f fs ih =>
    rw [List.map_cons, List.foldl_cons,
      processFrame_mkFrame parse st f (hwf f (List.mem_cons_self _ _)) hcl,
      ih { st with records := st.records ++ [frameRecord parse f] }
        (fun g hg => hwf g (List.mem_cons_of_mem f hg)) hcl]
    simp

/-- A single read containing the whole well-formed frame sequence decodes to
exactly its records, leaves the stream open, and empties the buffer. -/
theorem decode_framesText (parse : String → Option JsonValue)
    (fs : List (List Char × List Char)) (hwf : ∀ f ∈ fs, wfFrame parse f) :
    readChunk parse initDecoder (framesText fs) =
      ⟨[], fs.map (frameRecord parse), false⟩ := by
  rw [readChunk_open parse _ _ rfl]
  simp only [initDecoder]
  rw [List.nil_append,
    splitFrames_framesText fs (fun f hf => ⟨(hwf f hf).1, (hwf f hf).2.1⟩),
    List.dropLast_concat, getLastD_append_ne _ _ _ (by simp)]
  rw [show (([[]] : List (List Char)).getLastD []) = [] from rfl]
  rw [foldl_processFrame_wf parse fs _ hwf rfl]
  simp

/- ### Further per-frame lemmas -/

theorem foldl_readChunk_closed (parse : String → Option JsonValue)
    (cs : List (List Char)) (st : DecoderState) (h : st.closed = true) :
    cs.foldl (readChunk parse) st = st := by
  induction cs with
  | nil => rfl
  | cons c cs ih => rw [List.foldl_cons, readChunk_closed _ _ _ h, ih]

theorem processFrame_done (parse : String → Option JsonValue)
    (st : DecoderState) (f : List Char)
    (hname : (parseFrameFields (splitLines f)).1 = ("done").data)
    (hblank : trimChars f ≠ []) (hcl : st.closed = false) :
    (processFrame parse st f).closed = true := by
  simp only [processFrame]
  rw [if_neg (by simp [hcl]), if_neg hblank, hname, if_neg (by decide),
    if_pos rfl]

theorem processFrame_noop (parse : String → Option JsonValue)
    (st : DecoderState) (bad : List Char)
    (hparse : parse (String.mk (parseFrameFields (splitLines bad)).2) = none)
    (hname : (parseFrameFields (splitLines bad)).1 ≠ ("done").data) :
    processFrame parse st bad = st := by
  simp [processFrame, hparse, hname]

/- ### Claim C2 -/

/-- Claim C2 (corrected), counterexample to the claim as stated: a single
complete SSE frame with an event line and a data line, delivered as one read,
can decode to zero records rather than one, because a frame named heartbeat
is filtered out. parseStub agrees with JSON.parse on the only data text
involved (the empty-object text). -/
theorem claim_c2_counterexample :
    (decodeAll parseStub
      [("event: heartbeat\ndata: \x7b\x7d\n\n").data]).records.length = 0 ∧
    (0 : Nat) ≠ 1 := ⟨rfl, by decide⟩

/-- Claim C2 (amended): for every list of complete SSE frames whose event
names are (after trimming) none of the control names heartbeat, connected and
done, and whose data texts parse as JSON, and for every partition of the
concatenated frame text into delivered reads, the decoder yields exactly one
record per frame, in frame arrival order, with no record duplicated (the
output equals the frame list mapped to its records), ends with the stream
still open and an empty buffer; and (retention) decoding text in two reads
equals decoding the concatenated read: the trailing incomplete piece of a
read is never parsed, it is carried in the buffer into the next read. -/
theorem claim_c2_amended (parse : String → Option JsonValue)
    (fs : List (List Char × List Char)) (cs : List (List Char))
    (hwf : ∀ f ∈ fs, wfFrame parse f)
    (hsplit : concatChunks cs = framesText fs) :
    ((decodeAll parse cs).records = fs.map (frameRecord parse) ∧
      (decodeAll parse cs).closed = false ∧
      (decodeAll parse cs).buffer = []) ∧
    (∀ st a b, decEquiv (readChunk parse st (a ++ b))
      (readChunk parse (readChunk parse st a) b)) := by
  constructor
  · have hgood : goodBuffer initDecoder := by
      simp [goodBuffer, initDecoder, splitFrames]
    have h1 : decEquiv (decodeAll parse cs)
        (readChunk parse initDecoder (concatChunks cs)) :=
      decode_concat parse cs initDecoder hgood
    rw [hsplit, decode_framesText parse fs hwf] at h1
    obtain ⟨hr, hc, hb⟩ := h1
    exact ⟨hr, hc, hb hc⟩
  · exact fun st a b => readChunk_append parse st a b

/-- Concrete frame list instantiating claim C2. -/
def c2fs : List (List Char × List Char) :=
  [(("agent:response").data, ("\x7b\x7d").data)]

/-- A partition of the frame text of c2fs splitting it at arbitrary offsets,
including inside the name and inside the separator. -/
def c2cs : List (List Char) :=
  [("event: agent:res").data, ("ponse\ndata: \x7b\x7d\n").data, ("\n").data]

theorem claim_c2_witness :
    (∀ f ∈ c2fs, wfFrame parseStub f) ∧
    concatChunks c2cs = framesText c2fs ∧
    ((decodeAll parseStub c2cs).records = c2fs.map (frameRecord parseStub) ∧
      (decodeAll parseStub c2cs).closed = false ∧
      (decodeAll parseStub c2cs).buffer = []) := by
  have h1 : ∀ f ∈ c2fs, wfFrame parseStub f := by
    intro f hf
    simp only [c2fs, List.mem_singleton] at hf
    subst hf
    exact ⟨by decide, by decide, by decide, by decide, by decide, by decide⟩
  have h2 : concatChunks c2cs = framesText c2fs := rfl
  exact ⟨h1, h2, (claim_c2_amended parseStub c2fs c2cs h1 h2).1⟩

/- ### Claim C4 -/

/-- Claim C4: a complete frame whose decoded event name is "done" terminates
the decode gracefully at that frame: the complete frames already buffered
after it in the same read contribute no records (the state is exactly as if
they were absent), the stream ends closed, and any reads delivered afterwards
are ignored entirely. -/
theorem claim_c4_done_terminates (parse : String → Option JsonValue)
    (st : DecoderState) (fs1 fs2 : List (List Char)) (f : List Char)
    (hname : (parseFrameFields (splitLines f)).1 = ("done").data)
    (hblank : trimChars f ≠ []) :
    ((fs1 ++ f :: fs2).foldl (processFrame parse) st =
      (fs1 ++ [f]).foldl (processFrame parse) st) ∧
    (((fs1 ++ [f]).foldl (processFrame parse) st).closed = true ∨
      st.closed = true) ∧
    (∀ (st2 : DecoderState) (cs : List (List Char)), st2.closed = true →
      cs.foldl (readChunk parse) st2 = st2) := by
  refine ⟨?_, ?_, fun st2 cs h => foldl_readChunk_closed parse cs st2 h⟩
  · rw [List.foldl_append, List.foldl_append, List.foldl_cons,
      List.foldl_cons, List.foldl_nil]
    rcases hcl1 : (fs1.foldl (processFrame parse) st).closed with _ | _
    · exact foldl_processFrame_closed parse fs2 _
        (processFrame_done parse _ f hname hblank hcl1)
    · rw [processFrame_closed_absorb _ _ _ hcl1]
      exact foldl_processFrame_closed parse fs2 _ hcl1
  · rw [List.foldl_append, List.foldl_cons, List.foldl_nil]
    rcases hcl1 : (fs1.foldl (processFrame parse) st).closed with _ | _
    · exact Or.inl (processFrame_done parse _ f hname hblank hcl1)
    · left
      rw [processFrame_closed_absorb _ _ _ hcl1]
      exact hcl1

theorem claim_c4_witness :
    ((parseFrameFields (splitLines (("event: done\ndata: \x7b\x7d").data))).1 =
      ("done").data ∧
     trimChars (("event: done\ndata: \x7b\x7d").data) ≠ []) ∧
    (([] ++ ("event: done\ndata: \x7b\x7d").data ::
        [("event: agent:response\ndata: \x7b\x7d").data]).foldl
        (processFrame parseStub) initDecoder =
      ([] ++ [("event: done\ndata: \x7b\x7d").data]).foldl
        (processFrame parseStub) initDecoder) := by
  have h1 : (parseFrameFields (splitLines (("event: done\ndata: \x7b\x7d").data))).1 =
      ("done").data := by decide
  have h2 : trimChars (("event: done\ndata: \x7b\x7d").data) ≠ [] := by decide
  exact ⟨⟨h1, h2⟩,
    (claim_c4_done_terminates parseStub initDecoder []
      [("event: agent:response\ndata: \x7b\x7d").data] _ h1 h2).1⟩

/- ### Claim C5 -/

/-- Claim C5 (corrected), counterexample to the claim as stated: a complete
frame whose data text is not valid JSON yields no record, but when its event
name is "done" it still ends the stream, so the frames after it do not decode
as they would were the malformed frame absent. parseStub agrees with
JSON.parse on both data texts involved: the malformed text does not parse,
the empty-object text parses to the empty object. -/
theorem claim_c5_counterexample :
    (decodeAll parseStub
      [("event: done\ndata: \x7bnot json\x7d\n\nevent: agent:response\ndata: \x7b\x7d\n\n").data]).closed
        = true ∧
    (decodeAll parseStub
      [("event: done\ndata: \x7bnot json\x7d\n\nevent: agent:response\ndata: \x7b\x7d\n\n").data]).records
        = [] ∧
    (decodeAll parseStub
      [("event: agent:response\ndata: \x7b\x7d\n\n").data]).records =
      [⟨"agent:response", JsonValue.obj []⟩] :=
  ⟨rfl, rfl, rfl⟩

/-- Claim C5 (amended): a complete frame whose data text does not parse as
JSON and whose event name is not "done" is silently dropped: it yields no
record, raises nothing, does not end the stream, and the frame loop reaches
exactly the state it would reach were the frame absent — so every other frame
decodes to exactly the same records. -/
theorem claim_c5_amended (parse : String → Option JsonValue)
    (st : DecoderState) (fs1 fs2 : List (List Char)) (bad : List Char)
    (hparse : parse (String.mk (parseFrameFields (splitLines bad)).2) = none)
    (hname : (parseFrameFields (splitLines bad)).1 ≠ ("done").data) :
    (fs1 ++ bad :: fs2).foldl (processFrame parse) st =
      (fs1 ++ fs2).foldl (processFrame parse) st := by
  rw [List.foldl_append, List.foldl_append, List.foldl_cons,
    processFrame_noop parse _ bad hparse hname]

theorem claim_c5_witness :
    (parseStub (String.mk (parseFrameFields
      (splitLines (("event: agent:thinking\ndata: \x7bnot json\x7d").data))).2) = none ∧
     (parseFrameFields (splitLines
      (("event: agent:thinking\ndata: \x7bnot json\x7d").data))).1 ≠ ("done").data) ∧
    (([("event: connected\ndata: \x7b\x7d").data] ++
        ("event: agent:thinking\ndata: \x7bnot json\x7d").data ::
        [("event: agent:response\ndata: \x7b\x7d").data]).foldl
        (processFrame parseStub) initDecoder =
      ([("event: connected\ndata: \x7b\x7d").data] ++
        [("event: agent:response\ndata: \x7b\x7d").data]).foldl
        (processFrame parseStub) initDecoder) := by
  have h1 : parseStub (String.mk (parseFrameFields
      (splitLines (("event: agent:thinking\ndata: \x7bnot json\x7d").data))).2) = none := by
    rfl
  have h2 : (parseFrameFields (splitLines
      (("event: agent:thinking\ndata: \x7bnot json\x7d").data))).1 ≠ ("done").data := by
    decide
  exact ⟨⟨h1, h2⟩,
    claim_c5_amended parseStub initDecoder
      [("event: connected\ndata: \x7b\x7d").data]
      [("event: agent:response\ndata: \x7b\x7d").data] _ h1 h2⟩

/- ### Claim C6 -/

theorem string_mk_ne_of_data_ne (l : List Char) (s : String)
    (h : l ≠ s.data) : String.mk l ≠ s := by
  intro he
  exact h (congrArg String.data he)

/-- Either a frame leaves the record list unchanged, or it appends exactly one
record whose name is its decoded event name, which is then neither heartbeat
nor connected. -/
theorem processFrame_records_shape (parse : String → Option JsonValue)
    (st : DecoderState) (f : List Char) :
    (processFrame parse st f).records = st.records ∨
    ∃ v, (processFrame parse st f).records =
        st.records ++ [⟨String.mk (parseFrameFields (splitLines f)).1, v⟩] ∧
      (parseFrameFields (splitLines f)).1 ≠ ("heartbeat").data ∧
      (parseFrameFields (splitLines f)).1 ≠ ("connected").data := by
  simp only [processFrame]
  split
  · exact Or.inl rfl
  split
  · exact Or.inl rfl
  split
  · exact Or.inl rfl
  rename_i hnot
  push_neg at hnot
  split
  · split
    · rename_i v hv
      exact Or.inr ⟨v, rfl, hnot.1, hnot.2⟩
    · exact Or.inl rfl
  · split
    · rename_i v hv
      exact Or.inr ⟨v, rfl, hnot.1, hnot.2⟩
    · exact Or.inl rfl

theorem foldl_processFrame_names (parse : String → Option JsonValue)
    (fsl : List (List Char)) (st : DecoderState)
    (h : ∀ r ∈ st.records, r.event ≠ "heartbeat" ∧ r.event ≠ "connected") :
    ∀ r ∈ (fsl.foldl (processFrame parse) st).records,
      r.event ≠ "heartbeat" ∧ r.event ≠ "connected" := by
  induction fsl generalizing st with
  | nil => exact h
  | cons f fsl ih =>
    rw [List.foldl_cons]
    refine ih (processFrame parse st f) ?_
    intro r hr
    rcases processFrame_records_shape parse st f with hs | ⟨v, hs, h1, h2⟩
    · rw [hs] at hr
      exact h r hr
    · rw [hs] at hr
      rcases List.mem_append.mp hr with h3 | h4
      · exact h r h3
      · rw [List.mem_singleton] at h4
        subst h4
        exact ⟨string_mk_ne_of_data_ne _ _ h1, string_mk_ne_of_data_ne _ _ h2⟩

theorem readChunk_names (parse : String → Option JsonValue)
    (st : DecoderState) (c : List Char)
    (h : ∀ r ∈ st.records, r.event ≠ "heartbeat" ∧ r.event ≠ "connected") :
    ∀ r ∈ (readChunk parse st c).records,
      r.event ≠ "heartbeat" ∧ r.event ≠ "connected" := by
  rcases hcl : st.closed with _ | _
  · rw [readChunk_open parse st c hcl]
    exact foldl_processFrame_names parse _ _ h
  · rw [readChunk_closed _ _ _ hcl]
    exact h

/-- Claim C6: no record named heartbeat or connected ever appears in the
decoder's output, for any input chunk sequence and any JSON parser. -/
theorem claim_c6_filtered (parse : String → Option JsonValue)
    (cs : List (List Char)) :
    (decodeAll parse cs).records.filter
      (fun r => r.event == "heartbeat" || r.event == "connected") = [] := by
  have hall : ∀ r ∈ (decodeAll parse cs).records,
      r.event ≠ "heartbeat" ∧ r.event ≠ "connected" := by
    have hgen : ∀ (st : DecoderState),
        (∀ r ∈ st.records, r.event ≠ "heartbeat" ∧ r.event ≠ "connected") →
        ∀ r ∈ (cs.foldl (readChunk parse) st).records,
          r.event ≠ "heartbeat" ∧ r.event ≠ "connected" := by
      induction cs with
      | nil => exact fun st h => h
      | cons c cs ih =>
        intro st h
        rw [List.foldl_cons]
        exact ih (readChunk parse st c) (readChunk_names parse st c h)
    exact hgen initDecoder (by intro r hr; simp [initDecoder] at hr)
  rw [List.filter_eq_nil_iff]
  intro r hr
  obtain ⟨h1, h2⟩ := hall r hr
  simp [h1, h2]

/- ### Claim C10 -/

theorem marks_exclusive (l : List Char) (he : evtMark.isPrefixOf l = true) :
    dataMark.isPrefixOf l = false := by
  cases l with
  | nil => exact absurd he (by decide)
  | cons c rest =>
    have h2 : (('e' == c) && (("vent: ").data).isPrefixOf rest) = true := he
    have hc : c = 'e' := by
      have := (Bool.and_eq_true _ _).mp h2
      exact (beq_iff_eq.mp this.1).symm
    subst hc
    rfl

theorem marks_exclusive2 (l : List Char) (hd : dataMark.isPrefixOf l = true) :
    evtMark.isPrefixOf l = false := by
  cases l with
  | nil => exact absurd hd (by decide)
  | cons c rest =>
    have h2 : (('d' == c) && (("ata: ").data).isPrefixOf rest) = true := hd
    have hc : c = 'd' := by
      have := (Bool.and_eq_true _ _).mp h2
      exact (beq_iff_eq.mp this.1).symm
    subst hc
    rfl

/-- The one-pass fold of the frame line scan equals the last-wins reading:
the name comes from the last event-marked line, the data text from the last
data-marked line, with the documented defaults. -/
theorem parseFrameFields_eq_lastWins (lines : List (List Char)) :
    parseFrameFields lines = lastWinsFields lines := by
  induction lines using List.reverseRecOn with
  | nil => rfl
  | append_singleton ls l ih =>
    have hfold : parseFrameFields (ls ++ [l]) =
        (fun acc line =>
          if evtMark.isPrefixOf line then (trimChars (line.drop 7), acc.2)
          else if dataMark.isPrefixOf line then (acc.1, line.drop 6)
          else acc) (parseFrameFields ls) l := by
      unfold parseFrameFields
      rw [List.foldl_append, List.foldl_cons, List.foldl_nil]
    rw [hfold, ih]
    unfold lastWinsFields
    by_cases hevt : evtMark.isPrefixOf l = true
    · have hdata := marks_exclusive l hevt
      rw [List.filter_append, List.filter_append]
      simp [hevt, hdata, List.getLast?_concat]
    · by_cases hdata : dataMark.isPrefixOf l = true
      · have hevt2 := marks_exclusive2 l hdata
        rw [List.filter_append, List.filter_append]
        simp [hdata, hevt2, List.getLast?_concat]
      · rw [List.filter_append, List.filter_append]
        simp [hevt, hdata]

/-- A frame with no data-marked line keeps the default data text, so (when
the empty-object text parses to the empty object, its name is not filtered,
the stream is open and the frame is not blank) its record carries the empty
object as payload. -/
theorem processFrame_no_data_line (parse : String → Option JsonValue)
    (st : DecoderState) (f : List Char)
    (hcl : st.closed = false)
    (hblank : trimChars f ≠ [])
    (hparse : parse "\x7b\x7d" = some (JsonValue.obj []))
    (hnodata : (splitLines f).filter (fun l => dataMark.isPrefixOf l) = [])
    (hnm1 : (parseFrameFields (splitLines f)).1 ≠ ("heartbeat").data)
    (hnm2 : (parseFrameFields (splitLines f)).1 ≠ ("connected").data) :
    (processFrame parse st f).records = st.records ++
      [⟨String.mk (parseFrameFields (splitLines f)).1, JsonValue.obj []⟩] := by
  have hdef : (parseFrameFields (splitLines f)).2 = ("\x7b\x7d").data := by
    rw [parseFrameFields_eq_lastWins]
    unfold lastWinsFields
    rw [hnodata]
    rfl
  have hp2 : parse (String.mk (parseFrameFields (splitLines f)).2) =
      some (JsonValue.obj []) := by
    rw [hdef]
    exact hparse
  simp only [processFrame]
  rw [if_neg (by simp [hcl]), if_neg hblank,
    if_neg (by rintro (h1 | h1); exact hnm1 h1; exact hnm2 h1), hp2]
  split
  · rfl
  · rfl

/-- Claim C10: the decoder builds the record from the last event-marked line
(default name "message") and the last data-marked line only (default payload
text the empty object): earlier data lines are discarded, not concatenated;
and a frame with an event line but no data line yields a record whose payload
is the empty object (for a parser that, like JSON.parse, parses the
empty-object text to the empty object). -/
theorem claim_c10_last_wins :
    (∀ lines : List (List Char), parseFrameFields lines = lastWinsFields lines) ∧
    (∀ (parse : String → Option JsonValue) (st : DecoderState) (f : List Char),
      st.closed = false → trimChars f ≠ [] →
      parse "\x7b\x7d" = some (JsonValue.obj []) →
      (splitLines f).filter (fun l => dataMark.isPrefixOf l) = [] →
      (parseFrameFields (splitLines f)).1 ≠ ("heartbeat").data →
      (parseFrameFields (splitLines f)).1 ≠ ("connected").data →
      (processFrame parse st f).records = st.records ++
        [⟨String.mk (parseFrameFields (splitLines f)).1, JsonValue.obj []⟩]) :=
  ⟨parseFrameFields_eq_lastWins,
    fun parse st f h1 h2 h3 h4 h5 h6 =>
      processFrame_no_data_line parse st f h1 h2 h3 h4 h5 h6⟩

theorem claim_c10_witness :
    (parseFrameFields (splitLines (("event: alpha\ndata: 1\ndata: 2").data)) =
      lastWinsFields (splitLines (("event: alpha\ndata: 1\ndata: 2").data))) ∧
    (initDecoder.closed = false ∧
     trimChars (("event: alpha").data) ≠ [] ∧
     parseStub "\x7b\x7d" = some (JsonValue.obj []) ∧
     (splitLines (("event: alpha").data)).filter
       (fun l => dataMark.isPrefixOf l) = [] ∧
     (processFrame parseStub initDecoder (("event: alpha").data)).records =
       initDecoder.records ++
         [⟨String.mk (parseFrameFields
            (splitLines (("event: alpha").data))).1, JsonValue.obj []⟩]) := by
  refine ⟨(claim_c10_last_wins).1 _, rfl, by decide, rfl, by decide, ?_⟩
  exact (claim_c10_last_wins).2 parseStub initDecoder (("event: alpha").data)
    rfl (by decide) rfl (by decide) (by decide) (by decide)

/- ### Claim C1: bracketing of text spans -/

theorem finishText_active (s : BridgeState) :
    ((finishText s).2).activeTextId = none := by
  rcases hs : s.activeTextId with _ | i <;> simp [finishText, hs]

theorem ensureTextStarted_active (s : BridgeState) :
    ((ensureTextStarted s).2.2).activeTextId = some (ensureTextStarted s).1 := by
  rcases hs : s.activeTextId with _ | i <;> simp [ensureTextStarted, hs]

theorem finishText_span (s : BridgeState) (o : Option Nat)
    (h : s.activeTextId = o) :
    ((finishText s).1).foldl spanStep (some o) = some none := by
  rcases hs : s.activeTextId with _ | i <;>
    rw [← h] <;> simp [finishText, hs, spanStep]

theorem ensureTextStarted_span (s : BridgeState) (o : Option Nat)
    (h : s.activeTextId = o) :
    ((ensureTextStarted s).2.1).foldl spanStep (some o) =
      some (some (ensureTextStarted s).1) := by
  rcases hs : s.activeTextId with _ | i <;>
    rw [← h] <;> simp [ensureTextStarted, hs, spanStep]

set_option maxHeartbeats 1000000 in
theorem handleEvent_span (ev : SSERecord) (s : BridgeState) :
    ((handleEvent ev s).1).foldl spanStep (some s.activeTextId) =
      some ((handleEvent ev s).2.1).activeTextId := by
  simp only [handleEvent]
  repeat' split
  all_goals
    simp [List.foldl_append, spanStep, finishText_span, finishText_active,
      ensureTextStarted_span, ensureTextStarted_active]

theorem runEvents_span (evs : List SSERecord) (s : BridgeState) :
    ((runEvents evs s).1).foldl spanStep (some s.activeTextId) =
      some ((runEvents evs s).2.1).activeTextId := by
  induction evs generalizing s with
  | nil => rfl
  | cons e evs ih =>
    simp only [runEvents]
    split
    · exact handleEvent_span e s
    · rw [List.foldl_append, handleEvent_span e s, ih]

/-- Claim C1: for every delivered record sequence and every way the stream
hands control back (graceful end or a thrown read failure), the chunks
written by createEngineStream are properly bracketed with respect to text
spans: at any point at most one text span is open, every text-start is
followed by exactly one matching text-end before the call returns or
propagates the failure, and no text-end is written without a prior matching
open text-start. -/
theorem claim_c1_bracketing (events : List SSERecord) (ending : StreamEnd) :
    wellBracketed (createEngineStream events ending).1 := by
  unfold wellBracketed spanScan createEngineStream
  rw [List.foldl_append]
  have h1 := runEvents_span events ⟨none, 0⟩
  rw [h1]
  rcases h : ((runEvents events ⟨none, 0⟩).2.1).activeTextId with _ | i
  · simp [finishText, h]
  · simp [finishText, h, spanStep]

/- ### Claim C3 -/

/-- The summary line written for goal:completed, as a function of the three
counts. -/
def goalMsg (tasks completed failed : Int) : String :=
  "\n\n---\nGoal completed (" ++ toString completed ++ "/" ++ toString tasks ++
    " tasks, " ++ toString failed ++ " failed)\n"

/-- The claim's reading of a count field: taken from the payload, defaulting
to 0 when absent. -/
def countFrom (o : Option JsonValue) (m : Int) : Prop :=
  o = some (JsonValue.num m) ∨ (o = none ∧ m = 0)

theorem countFrom_getD (o : Option JsonValue) (m : Int) (h : countFrom o m) :
    (nullish o).getD (JsonValue.num 0) = JsonValue.num m := by
  rcases h with h | ⟨h, hm⟩
  · subst h; rfl
  · subst h; subst hm; rfl

set_option maxHeartbeats 1000000 in
theorem handleEvent_no_finish (ev : SSERecord) (s : BridgeState)
    (h : ev.event ≠ "goal:completed") (r : String) :
    Chunk.finish r ∉ (handleEvent ev s).1 := by
  rcases hs : s.activeTextId with _ | i <;>
    · simp only [handleEvent]
      repeat' split
      all_goals simp_all [finishText, ensureTextStarted, hs]

theorem finishText_no_finish (s : BridgeState) (r : String) :
    Chunk.finish r ∉ (finishText s).1 := by
  rcases hs : s.activeTextId with _ | i <;> simp [finishText, hs]

theorem runEvents_no_finish (evs : List SSERecord) (s : BridgeState)
    (h : ∀ e ∈ evs, e.event ≠ "goal:completed") (r : String) :
    Chunk.finish r ∉ (runEvents evs s).1 := by
  induction evs generalizing s with
  | nil => simp [runEvents]
  | cons e evs ih =>
    simp only [runEvents]
    split
    · exact handleEvent_no_finish e s (h e (List.mem_cons_self _ _)) r
    · intro hmem
      rcases List.mem_append.mp hmem with h1 | h2
      · exact handleEvent_no_finish e s (h e (List.mem_cons_self _ _)) r h1
      · exact ih _ (fun e2 he2 => h e2 (List.mem_cons_of_mem e he2)) h2

/-- Claim C3: a goal:completed event writes, in order, a text-start only when
no span is open, one text-delta carrying the summary line with the counts
taken from the payload (0 when absent), a text-end closing the span, and a
finish chunk with reason stop; and an event stream without goal:completed
never produces a finish chunk. -/
theorem claim_c3_goal_completed (ev : SSERecord) (s : BridgeState)
    (tasks completed failed : Int) :
    (ev.event = "goal:completed" → ev.data.isNull = false →
      countFrom (getProp ev.data "tasks") tasks →
      countFrom (getProp ev.data "completed") completed →
      countFrom (getProp ev.data "failed") failed →
      handleEvent ev s =
        ((match s.activeTextId with
          | some _ => ([] : List Chunk)
          | none => [Chunk.textStart s.nextId]) ++
          [Chunk.textDelta
              (match s.activeTextId with
               | some i => i
               | none => s.nextId) (goalMsg tasks completed failed),
           Chunk.textEnd
              (match s.activeTextId with
               | some i => i
               | none => s.nextId),
           Chunk.finish "stop"],
         ⟨none, match s.activeTextId with
                | some _ => s.nextId
                | none => s.nextId + 1⟩,
         false)) ∧
    (∀ (evs : List SSERecord) (ending : StreamEnd),
      (∀ e ∈ evs, e.event ≠ "goal:completed") →
      ∀ r, Chunk.finish r ∉ (createEngineStream evs ending).1) := by
  constructor
  · obtain ⟨evn, data⟩ := ev
    intro hev hnull h1 h2 h3
    replace hev : evn = "goal:completed" := hev
    subst hev
    replace hnull : data.isNull = false := hnull
    simp only [handleEvent, if_true, if_false]
    rw [if_neg (by simp [hnull])]
    replace h1 : countFrom (getProp data "tasks") tasks := h1
    replace h2 : countFrom (getProp data "completed") completed := h2
    replace h3 : countFrom (getProp data "failed") failed := h3
    rw [countFrom_getD _ _ h1, countFrom_getD _ _ h2, countFrom_getD _ _ h3]
    rcases hs : s.activeTextId with _ | i <;>
      simp [ensureTextStarted, finishText, hs, goalMsg, toJSStr, hnull]
  · intro evs ending h r
    unfold createEngineStream
    intro hmem
    rcases List.mem_append.mp hmem with h1 | h2
    · exact runEvents_no_finish evs _ h r h1
    · exact finishText_no_finish _ r h2

theorem claim_c3_witness :
    ((⟨"goal:completed", JsonValue.obj
        [("tasks", JsonValue.num 2), ("completed", JsonValue.num 2)]⟩ :
          SSERecord).event = "goal:completed" ∧
     countFrom (getProp (JsonValue.obj
        [("tasks", JsonValue.num 2), ("completed", JsonValue.num 2)]) "failed") 0) ∧
    handleEvent
        ⟨"goal:completed", JsonValue.obj
          [("tasks", JsonValue.num 2), ("completed", JsonValue.num 2)]⟩
        ⟨none, 0⟩ =
      ([Chunk.textStart 0,
        Chunk.textDelta 0 (goalMsg 2 2 0),
        Chunk.textEnd 0,
        Chunk.finish "stop"],
       ⟨none, 1⟩, false) := by
  refine ⟨⟨rfl, Or.inr ⟨rfl, rfl⟩⟩, ?_⟩
  have h := (claim_c3_goal_completed
    ⟨"goal:completed", JsonValue.obj
      [("tasks", JsonValue.num 2), ("completed", JsonValue.num 2)]⟩
    ⟨none, 0⟩ 2 2 0).1 rfl rfl (Or.inl rfl) (Or.inl rfl) (Or.inr ⟨rfl, rfl⟩)
  exact h

/- ### Claim C7 -/

/-- An agent:response event whose extracted content is a non-empty string. -/
def respEvent (e : SSERecord) : Prop :=
  e.event = "agent:response" ∧ e.data.isNull = false ∧
    ∃ c, respContent e.data = JsonValue.str c ∧ c ≠ ""

theorem handleEvent_response (ev : SSERecord) (s : BridgeState) (c : String)
    (hev : ev.event = "agent:response") (hnull : ev.data.isNull = false)
    (hc : respContent ev.data = JsonValue.str c) (hne : c ≠ "") :
    handleEvent ev s =
      ((match s.activeTextId with
        | some i => [Chunk.textDelta i (c ++ "\n\n")]
        | none => [Chunk.textStart s.nextId,
            Chunk.textDelta s.nextId (c ++ "\n\n")]),
       (match s.activeTextId with
        | some _ => s
        | none => ⟨some s.nextId, s.nextId + 1⟩),
       false) := by
  obtain ⟨evn, data⟩ := ev
  replace hev : evn = "agent:response" := hev
  subst hev
  replace hnull : data.isNull = false := hnull
  replace hc : respContent data = JsonValue.str c := hc
  have htr : truthy (respContent data) = true := by
    rw [hc]
    simp [truthy]
    exact hne
  simp only [handleEvent, if_true, if_false]
  rw [if_neg (by simp [hnull]), if_pos htr]
  rcases hs : s.activeTextId with _ | i <;>
    simp [ensureTextStarted, hs, toJSStr, hc, hnull]

theorem runEvents_response_open (run : List SSERecord) (s : BridgeState)
    (i : Nat) (hs : s.activeTextId = some i) (h : ∀ e ∈ run, respEvent e) :
    runEvents run s =
      (run.map (fun e => Chunk.textDelta i
        (toJSStr (respContent e.data) ++ "\n\n")), s, false) := by
  induction run with
  | nil => simp [runEvents]
  | cons e run ih =>
    obtain ⟨hev, hnull, c, hc, hne⟩ := h e (List.mem_cons_self _ _)
    simp only [runEvents]
    rw [handleEvent_response e s c hev hnull hc hne]
    simp only [hs]
    rw [ih (fun e2 he2 => h e2 (List.mem_cons_of_mem e he2))]
    simp [hc, toJSStr]

theorem runEvents_response_fresh (run : List SSERecord) (s : BridgeState)
    (hs : s.activeTextId = none) (hne : run ≠ [])
    (h : ∀ e ∈ run, respEvent e) :
    runEvents run s =
      (Chunk.textStart s.nextId ::
        run.map (fun e => Chunk.textDelta s.nextId
          (toJSStr (respContent e.data) ++ "\n\n")),
       ⟨some s.nextId, s.nextId + 1⟩, false) := by
  cases run with
  | nil => exact absurd rfl hne
  | cons e run =>
    obtain ⟨hev, hnull, c, hc, hc2⟩ := h e (List.mem_cons_self _ _)
    simp only [runEvents]
    rw [handleEvent_response e s c hev hnull hc hc2]
    simp only [hs]
    rw [runEvents_response_open run ⟨some s.nextId, s.nextId + 1⟩ s.nextId rfl
      (fun e2 he2 => h e2 (List.mem_cons_of_mem e he2))]
    simp [hc, toJSStr]

/-- Claim C7: an agent:response event with non-empty string content writes
exactly one text-delta carrying the content plus a trailing double newline on
the currently open text id, opening a span with a fresh id only when none is
open; a run of such events from a closed-span state opens exactly one span
whose single text-start precedes all the deltas, all on the same id; and a
stream made of such a run emits exactly one text-start, the deltas in order,
and exactly one matching text-end, with no other span chunk interleaved. -/
theorem claim_c7_response_spans :
    (∀ (ev : SSERecord) (s : BridgeState) (c : String),
      ev.event = "agent:response" → ev.data.isNull = false →
      respContent ev.data = JsonValue.str c → c ≠ "" →
      handleEvent ev s =
        ((match s.activeTextId with
          | some i => [Chunk.textDelta i (c ++ "\n\n")]
          | none => [Chunk.textStart s.nextId,
              Chunk.textDelta s.nextId (c ++ "\n\n")]),
         (match s.activeTextId with
          | some _ => s
          | none => ⟨some s.nextId, s.nextId + 1⟩),
         false)) ∧
    (∀ (run : List SSERecord) (s : BridgeState),
      s.activeTextId = none → run ≠ [] → (∀ e ∈ run, respEvent e) →
      runEvents run s =
        (Chunk.textStart s.nextId ::
          run.map (fun e => Chunk.textDelta s.nextId
            (toJSStr (respContent e.data) ++ "\n\n")),
         ⟨some s.nextId, s.nextId + 1⟩, false)) ∧
    (∀ (run : List SSERecord) (ending : StreamEnd),
      run ≠ [] → (∀ e ∈ run, respEvent e) →
      (createEngineStream run ending).1 =
        Chunk.textStart 0 ::
          (run.map (fun e => Chunk.textDelta 0
            (toJSStr (respContent e.data) ++ "\n\n")) ++ [Chunk.textEnd 0])) := by
  refine ⟨handleEvent_response, runEvents_response_fresh, ?_⟩
  intro run ending hne h
  unfold createEngineStream
  rw [runEvents_response_fresh run ⟨none, 0⟩ rfl hne h]
  simp [finishText]

theorem claim_c7_witness :
    ((⟨"agent:response", JsonValue.obj [("output", JsonValue.str "Hello")]⟩ :
        SSERecord).event = "agent:response" ∧
     respContent (JsonValue.obj [("output", JsonValue.str "Hello")]) =
       JsonValue.str "Hello" ∧ ("Hello" : String) ≠ "") ∧
    (createEngineStream
        [⟨"agent:response", JsonValue.obj [("output", JsonValue.str "Hello")]⟩,
         ⟨"agent:response", JsonValue.obj [("text", JsonValue.str "Bye")]⟩]
        StreamEnd.graceful).1 =
      [Chunk.textStart 0, Chunk.textDelta 0 "Hello\n\n",
       Chunk.textDelta 0 "Bye\n\n", Chunk.textEnd 0] := by
  refine ⟨⟨rfl, rfl, by decide⟩, ?_⟩
  have h := (claim_c7_response_spans).2.2
    [⟨"agent:response", JsonValue.obj [("output", JsonValue.str "Hello")]⟩,
     ⟨"agent:response", JsonValue.obj [("text", JsonValue.str "Bye")]⟩]
    StreamEnd.graceful (by simp)
    (by
      intro e he
      rcases List.mem_cons.mp he with h1 | h2
      · subst h1
        exact ⟨rfl, rfl, "Hello", rfl, by decide⟩
      · rw [List.mem_singleton] at h2
        subst h2
        exact ⟨rfl, rfl, "Bye", rfl, by decide⟩)
  rw [h]
  simp [respContent, getProp, nullish, toJSStr, List.lookup]

/- ### Claim C8 -/

/-- Claim C8: an agent:error or loop:error event first closes any open text
span, then writes exactly one error chunk whose text is the payload's error
field when present (a null field counting as absent, per the nullish
coalescing in the source), otherwise its message field, otherwise the generic
fallback; and for an object payload of any shape the translation never
raises. -/
theorem claim_c8_error_events (ev : SSERecord) (s : BridgeState)
    (fields : List (String × JsonValue))
    (hev : ev.event = "agent:error" ∨ ev.event = "loop:error")
    (hdata : ev.data = JsonValue.obj fields) :
    (handleEvent ev s).2.2 = false ∧
    (handleEvent ev s).2.1 = (finishText s).2 ∧
    ∃ v, (handleEvent ev s).1 = (finishText s).1 ++ [Chunk.error v] ∧
      (nullish (getProp ev.data "error") = some v ∨
       (nullish (getProp ev.data "error") = none ∧
        nullish (getProp ev.data "message") = some v) ∨
       (nullish (getProp ev.data "error") = none ∧
        nullish (getProp ev.data "message") = none ∧
        v = JsonValue.str "Engine error")) := by
  obtain ⟨evn, data⟩ := ev
  replace hdata : data = JsonValue.obj fields := hdata
  subst hdata
  have hnull : (JsonValue.obj fields).isNull = false := rfl
  have hbody : handleEvent ⟨evn, JsonValue.obj fields⟩ s =
      ((finishText s).1 ++ [Chunk.error
        (((nullish (getProp (JsonValue.obj fields) "error")).orElse
          (fun _ => nullish (getProp (JsonValue.obj fields) "message"))).getD
          (JsonValue.str "Engine error"))],
       (finishText s).2, false) := by
    rcases hev with hev | hev <;>
      · replace hev : evn = _ := hev
        subst hev
        simp only [handleEvent, if_true, if_false]
        rfl
  rw [hbody]
  refine ⟨rfl, rfl, ?_⟩
  rcases he : nullish (getProp (JsonValue.obj fields) "error") with _ | v1
  · rcases hm : nullish (getProp (JsonValue.obj fields) "message") with _ | v2
    · exact ⟨JsonValue.str "Engine error", rfl, Or.inr (Or.inr ⟨rfl, rfl, rfl⟩)⟩
    · exact ⟨v2, rfl, Or.inr (Or.inl ⟨rfl, rfl⟩)⟩
  · exact ⟨v1, rfl, Or.inl rfl⟩

theorem claim_c8_witness :
    ((⟨"agent:error", JsonValue.obj [("error", JsonValue.str "boom")]⟩ :
        SSERecord).event = "agent:error" ∨
     (⟨"agent:error", JsonValue.obj [("error", JsonValue.str "boom")]⟩ :
        SSERecord).event = "loop:error") ∧
    ((handleEvent
        ⟨"agent:error", JsonValue.obj [("error", JsonValue.str "boom")]⟩
        ⟨some 3, 4⟩).2.2 = false ∧
     ∃ v, (handleEvent
        ⟨"agent:error", JsonValue.obj [("error", JsonValue.str "boom")]⟩
        ⟨some 3, 4⟩).1 =
          (finishText ⟨some 3, 4⟩).1 ++ [Chunk.error v]) := by
  have h := claim_c8_error_events
    ⟨"agent:error", JsonValue.obj [("error", JsonValue.str "boom")]⟩
    ⟨some 3, 4⟩ [("error", JsonValue.str "boom")] (Or.inl rfl) rfl
  obtain ⟨h1, h2, v, h3, h4⟩ := h
  exact ⟨Or.inl rfl, h1, v, h3⟩

/- ### Claim C9 -/

/-- Claim C9: with the engine base URL configuration absent, both submitGoal
and streamGoalEvents fail at call time with the configuration error, before
any request is constructed (the Except.error result carries no FetchRequest),
for every API key, message, goal id and URI encoder. -/
theorem claim_c9_config_error :
    ∀ (encode : String → String) (apiKey : Option String)
      (message goalId : String),
      submitGoal none apiKey message =
        Except.error "OPENCLAW_ENGINE_URL is not configured" ∧
      streamGoalEventsOpen encode none apiKey goalId =
        Except.error "OPENCLAW_ENGINE_URL is not configured" :=
  fun _ _ _ _ => ⟨rfl, rfl⟩

end OpenClaw
